import Mathlib

/-!
Verification of the distlock key/value lock server core.

Shallow embedding of `src/main.go` (Geo5/distlock): an in-memory service
granting advisory, time-bounded exclusive locks over named keys.

Go maps are embedded as association lists (`List (String × α)`) with
replace-or-add insertion; `strconv.ParseInt(s, 10, 64)` is embedded as
`parseGoInt64`.  The one-shot `time.Timer` facility is embedded as two
tables of armed callbacks `(sessionId, key)` carried in the state:
`timers` holds the sessions' current pending timers (the Lease Manager's
bookkeeping), and `stale` holds timers that `Timer.Stop` tried to cancel
(from renew's rearm or destroy) but whose callback may already have begun
running — cancellation is best-effort, so a stale callback may still fire.
An `expireFire` transition models an armed, not-yet-run callback firing,
whether pending or stale; the callback body deletes the captured entries
unconditionally, exactly as in the source.  Go code paths that dereference
an absent map entry (a nil-pointer panic at runtime) are embedded as
`Option` results with `none` marking the panic.
-/

namespace Distlock

/-- Struct `lockableValue` of main.go: per-key payload plus the exclusivity flag. -/
structure LockableValue where
  Value : String
  IsLocked : Bool
deriving DecidableEq, Repr

/-- Struct `session` of main.go (the `Timer` field lives in `ServerState.timers`). -/
structure Session where
  ID : String
  Key : String
deriving DecidableEq, Repr

/-- Go map read `m[k]` with its `ok` flag folded into `Option`. -/
def mapLookup {α : Type} : List (String × α) → String → Option α
  | [], _ => none
  | (k', v) :: rest, k => if k' = k then some v else mapLookup rest k

/-- Go map write `m[k] = v`: replace the entry if present, else add it. -/
def mapInsert {α : Type} : List (String × α) → String → α → List (String × α)
  | [], k, v => [(k, v)]
  | (k', v') :: rest, k, v =>
      if k' = k then (k, v) :: rest else (k', v') :: mapInsert rest k v

/-- Go `delete(m, k)`. -/
def mapDelete {α : Type} : List (String × α) → String → List (String × α)
  | [], _ => []
  | (k', v') :: rest, k =>
      if k' = k then mapDelete rest k else (k', v') :: mapDelete rest k

/-- Drop every pending timer belonging to session `sid`: the pending-side
bookkeeping of `Timer.Stop` (renew's rearm, destroy). -/
def timersRemove (ts : List (String × String)) (sid : String) :
    List (String × String) :=
  ts.filter (fun t => t.1 ≠ sid)

/-- The pending timers of session `sid` that a `Timer.Stop` call targets:
stopping is best-effort, so these move to the stale table (their callback
may already be running) rather than vanishing. -/
def stopTimers (ts : List (String × String)) (sid : String) :
    List (String × String) :=
  ts.filter (fun t => t.1 = sid)

/-- The whole shared state guarded by `kvLock`: the key/value table `kvs`,
the session registry `sessions`, the sessions' current pending timers, and
the stale timers — armed callbacks whose cancellation was requested but
which may have lost the race and still run (spec §5). -/
structure ServerState where
  kvs : List (String × LockableValue)
  sessions : List (String × Session)
  timers : List (String × String)
  stale : List (String × String)
deriving DecidableEq, Repr

/-- The empty state the process starts from. -/
def initState : ServerState := ⟨[], [], [], []⟩

/-- Digit scan of `strconv.ParseInt(s, 10, 64)`: optional sign, decimal digits only,
value within the signed 64-bit range; `none` is the error return. -/
def parseDigitsAux : List Char → Nat → Option Nat
  | [], acc => some acc
  | c :: cs, acc =>
      if c.isDigit then parseDigitsAux cs (acc * 10 + (c.toNat - 48)) else none

/-- See `parseDigitsAux`; entry point mirroring `strconv.ParseInt(_, 10, 64)`. -/
def parseGoInt64 (s : String) : Option Int :=
  match s.data with
  | [] => none
  | '+' :: cs =>
      if cs = [] then none
      else (parseDigitsAux cs 0).bind
        (fun n => if n ≤ 2 ^ 63 - 1 then some (n : Int) else none)
  | '-' :: cs =>
      if cs = [] then none
      else (parseDigitsAux cs 0).bind
        (fun n => if n ≤ 2 ^ 63 then some (-(n : Int)) else none)
  | cs =>
      (parseDigitsAux cs 0).bind
        (fun n => if n ≤ 2 ^ 63 - 1 then some (n : Int) else none)

/-- The `/kv/acquire/{key}/{duration}` handler.  `sid` is the cuid the
handler generates (`cuid.New()` happens after the duration parse, so a
parse error — result `none` — returns before any state is read or
written).  The source first inserts `{value, IsLocked:false}` when the key
is absent and then flips `IsLocked` to true on the unlocked path; the two
writes are fused here into a single insert with the same final map.  On
this path `startTimer` receives a session whose `Timer` is nil, so no
`Stop` happens: the new timer is simply armed on top of whatever pending
timers exist. -/
def acquireHandler (st : ServerState) (key durStr value sid : String) :
    ServerState × Option (String × Bool) :=
  match parseGoInt64 durStr with
  | none => (st, none)
  | some _ =>
    match mapLookup st.kvs key with
    | none =>
        ({ kvs := mapInsert st.kvs key ⟨value, true⟩,
           sessions := mapInsert st.sessions sid ⟨sid, key⟩,
           timers := (sid, key) :: st.timers,
           stale := st.stale },
         some (sid, true))
    | some lv =>
        if lv.IsLocked then (st, some (sid, false))
        else
          ({ kvs := mapInsert st.kvs key ⟨lv.Value, true⟩,
             sessions := mapInsert st.sessions sid ⟨sid, key⟩,
             timers := (sid, key) :: st.timers,
             stale := st.stale },
           some (sid, true))

/-- The `/kv/release/{key}/{sessionId}` handler. -/
def releaseHandler (st : ServerState) (key sid : String) :
    ServerState × Bool :=
  match mapLookup st.kvs key with
  | none => (st, false)
  | some lv =>
    match mapLookup st.sessions sid with
    | none => (st, false)
    | some s =>
        if s.Key = key then
          ({ st with kvs := mapInsert st.kvs key ⟨lv.Value, false⟩ }, true)
        else (st, false)

/-- The `/kv/set/{key}` handler; `sid = ""` is the missing `sessionId`
query parameter.  On the authorized branch the source writes
`kvs[key].Value = value` without checking presence: when the entry is
absent this is a nil-pointer dereference, embedded as result `none`. -/
def setHandler (st : ServerState) (key value sid : String) :
    Option (ServerState × Bool) :=
  if sid ≠ "" then
    match mapLookup st.sessions sid with
    | none => some (st, false)
    | some s =>
        if s.Key = key then
          match mapLookup st.kvs key with
          | none => none
          | some lv =>
              some ({ st with kvs := mapInsert st.kvs key ⟨value, lv.IsLocked⟩ },
                    true)
        else some (st, false)
  else
    match mapLookup st.kvs key with
    | none =>
        some ({ st with kvs := mapInsert st.kvs key ⟨value, false⟩ }, true)
    | some _ => some (st, false)

/-- The `/session/renew/{sessionId}/{duration}` handler.  The boolean is
true when no HTTP error was written (an unknown session is a silent
no-op, not an error).  `startTimer` stops the session's previous timer —
best-effort, so the stopped timer moves to the stale table — and arms a
fresh one capturing `s.ID` and `s.Key`. -/
def renewHandler (st : ServerState) (sid durStr : String) :
    ServerState × Bool :=
  match parseGoInt64 durStr with
  | none => (st, false)
  | some _ =>
    match mapLookup st.sessions sid with
    | none => (st, true)
    | some s =>
        ({ st with timers := (sid, s.Key) :: timersRemove st.timers sid,
                   stale := st.stale ++ stopTimers st.timers sid }, true)

/-- The `/session/destroy/{sessionId}` handler.  `session.Timer.Stop()` is
best-effort: the stopped pending timer moves to the stale table, where its
callback may still fire (spec §5). -/
def destroyHandler (st : ServerState) (sid : String) : ServerState :=
  match mapLookup st.sessions sid with
  | none => st
  | some s =>
      { kvs := mapDelete st.kvs s.Key,
        sessions := mapDelete st.sessions sid,
        timers := timersRemove st.timers sid,
        stale := st.stale ++ stopTimers st.timers sid }

/-- The `time.AfterFunc` callback armed by `startTimer`, with the captured
identifiers `sid = s.ID` and `key = s.Key`.  Any armed, not-yet-run
callback may fire: a pending timer (normal expiry) or a stale one whose
`Stop` lost the spec §5 race.  The body deletes the captured key's table
entry and the captured id's registry entry unconditionally, exactly as
the source callback does; firing consumes the callback. -/
def expireFire (st : ServerState) (sid key : String) : ServerState :=
  if (sid, key) ∈ st.timers then
    { kvs := mapDelete st.kvs key,
      sessions := mapDelete st.sessions sid,
      timers := timersRemove st.timers sid,
      stale := st.stale }
  else if (sid, key) ∈ st.stale then
    { kvs := mapDelete st.kvs key,
      sessions := mapDelete st.sessions sid,
      timers := st.timers,
      stale := st.stale.erase (sid, key) }
  else st

/-- The `/kv/get/{key}` handler: `(Success, Key, Value)` of `GetReturn`. -/
def getHandler (st : ServerState) (key : String) : Bool × String × String :=
  match mapLookup st.kvs key with
  | none => (false, "", "")
  | some lv => (true, key, lv.Value)

/-- The `/kv/keys` handler.  The source compares `key[:len(prefix)]` with
the filter; when the filter is non-empty and some stored key is shorter,
that slice is out of range and the handler panics — embedded as `none`. -/
def listKeysGo (st : ServerState) (pfx : String) : Option (List String) :=
  if pfx = "" then some (st.kvs.map (·.1))
  else if st.kvs.all (fun kv => pfx.length ≤ kv.1.length) then
    some ((st.kvs.filter (fun kv => kv.1.take pfx.length = pfx)).map (·.1))
  else none

/-- One externally triggered transition of the server: the five mutating
handlers plus the firing of an armed expiry timer. -/
inductive Op where
  | acquire (key durStr value sid : String)
  | release (key sid : String)
  | setO (key value sid : String)
  | renew (sid durStr : String)
  | destroy (sid : String)
  | expire (sid key : String)
deriving DecidableEq, Repr

/-- Whether an operation is a release request. -/
def Op.isRelease : Op → Bool
  | .release _ _ => true
  | _ => false

/-- State effect of one operation.  The `none` result of `setHandler` is a
process panic; the state component is kept unchanged there (no theorem
relies on the state after a panic: the panic case itself is exposed
through `setHandler` directly). -/
def applyOp (st : ServerState) : Op → ServerState
  | .acquire k d v sid => (acquireHandler st k d v sid).1
  | .release k sid => (releaseHandler st k sid).1
  | .setO k v sid =>
      match setHandler st k v sid with
      | some (st', _) => st'
      | none => st
  | .renew sid d => (renewHandler st sid d).1
  | .destroy sid => destroyHandler st sid
  | .expire sid k => expireFire st sid k

/-- Run a sequence of operations from a state. -/
def run (st : ServerState) : List Op → ServerState
  | [] => st
  | op :: ops => run (applyOp st op) ops

/-- An operation that is not a release, uses a fresh cuid when acquiring
(spec: session ids are globally unique, collision is impossible), and —
when it is a timer firing — fires a still-pending timer or nothing, never
a stale callback that lost the `Stop` race. -/
def OkOp (st : ServerState) : Op → Prop
  | .acquire _ _ _ sid => mapLookup st.sessions sid = none
  | .release _ _ => False
  | .expire sid k => (sid, k) ∈ st.timers ∨ (sid, k) ∉ st.stale
  | _ => True

/-- A run whose every step satisfies `OkOp` in the state it executes in. -/
def OkRun : ServerState → List Op → Prop
  | _, [] => True
  | st, op :: ops => OkOp st op ∧ OkRun (applyOp st op) ops

/-- Spec invariant 2 together with the registry key discipline: a
registered session is keyed by its own id and its key's table entry exists
and is locked. -/
def SessionsLocked (st : ServerState) : Prop :=
  ∀ sid s, mapLookup st.sessions sid = some s →
    s.ID = sid ∧ ∃ lv, mapLookup st.kvs s.Key = some lv ∧ lv.IsLocked = true

/-- Spec invariant 1 (uniqueness half): no two registered sessions lease
the same key. -/
def SessionsUnique (st : ServerState) : Prop :=
  ∀ sid1 s1 sid2 s2, mapLookup st.sessions sid1 = some s1 →
    mapLookup st.sessions sid2 = some s2 → s1.Key = s2.Key → sid1 = sid2

/-- Every pending timer belongs to a registered session and captured that
session's key. -/
def TimersWF (st : ServerState) : Prop :=
  ∀ sid k, (sid, k) ∈ st.timers →
    ∃ s, mapLookup st.sessions sid = some s ∧ s.Key = k

/-- The inductive invariant of the lock server. -/
def Inv (st : ServerState) : Prop :=
  SessionsLocked st ∧ SessionsUnique st ∧ TimersWF st

/-- The weaker invariant that makes the authorized-set branch memory-safe:
every registered session's key still has a table entry. -/
def WeakInv (st : ServerState) : Prop :=
  ∀ sid s, mapLookup st.sessions sid = some s →
    (mapLookup st.kvs s.Key).isSome

section MapLemmas

variable {α : Type}

theorem mapLookup_insert (m : List (String × α)) (k : String) (v : α)
    (k' : String) :
    mapLookup (mapInsert m k v) k' =
      if k = k' then some v else mapLookup m k' := by
  induction m with
  | nil => simp [mapInsert, mapLookup]
  | cons hd tl ih =>
    obtain ⟨hk, hv⟩ := hd
    by_cases h1 : hk = k
    · subst h1
      by_cases h2 : hk = k' <;> simp [mapInsert, mapLookup, h2]
    · by_cases h2 : k = k'
      · subst h2
        simp [mapInsert, mapLookup, h1, ih]
      · simp [mapInsert, mapLookup, h1, h2, ih]

theorem mapLookup_delete (m : List (String × α)) (k k' : String) :
    mapLookup (mapDelete m k) k' =
      if k = k' then none else mapLookup m k' := by
  induction m with
  | nil => simp [mapDelete, mapLookup]
  | cons hd tl ih =>
    obtain ⟨hk, hv⟩ := hd
    by_cases h1 : hk = k
    · subst h1
      by_cases h2 : hk = k'
      · subst h2
        simp [mapDelete, mapLookup, ih]
      · simp [mapDelete, mapLookup, h2, ih]
    · by_cases h2 : k = k'
      · subst h2
        simp [mapDelete, mapLookup, h1, ih]
      · simp [mapDelete, mapLookup, h1, h2, ih]

theorem mem_timersRemove (ts : List (String × String)) (sid : String)
    (t : String × String) :
    t ∈ timersRemove ts sid ↔ t ∈ ts ∧ t.1 ≠ sid := by
  simp [timersRemove, List.mem_filter]

end MapLemmas

section InvariantPreservation

/-- Invariant `Inv` holds in the initial empty state. -/
theorem inv_init : Inv initState := by
  refine ⟨?_, ?_, ?_⟩
  · intro sid s h
    simp [initState, mapLookup] at h
  · intro sid1 s1 sid2 s2 h1 h2 _
    simp [initState, mapLookup] at h1
  · intro sid k h
    simp [initState] at h

/-- No registered session can lease a key that is absent or unlocked. -/
theorem no_session_on_unlocked (st : ServerState) (key : String)
    (hA : SessionsLocked st)
    (hkey : ∀ lv, mapLookup st.kvs key = some lv → lv.IsLocked = false) :
    ∀ sid0 s0, mapLookup st.sessions sid0 = some s0 → s0.Key ≠ key := by
  intro sid0 s0 h0 hk0
  obtain ⟨_, lv0, hlv0, hlock0⟩ := hA sid0 s0 h0
  rw [hk0] at hlv0
  rw [hkey lv0 hlv0] at hlock0
  cases hlock0

/-- The state written by the successful branch of `acquire` satisfies
`Inv`, provided the key was absent or unlocked beforehand and the
generated session id is fresh (the source's cuid guarantee). -/
theorem inv_acquire_aux (st : ServerState) (key sid val' : String)
    (hinv : Inv st) (hfresh : mapLookup st.sessions sid = none)
    (hkey : ∀ lv, mapLookup st.kvs key = some lv → lv.IsLocked = false) :
    Inv { kvs := mapInsert st.kvs key ⟨val', true⟩,
          sessions := mapInsert st.sessions sid ⟨sid, key⟩,
          timers := (sid, key) :: st.timers,
          stale := st.stale } := by
  obtain ⟨hA, hB, hC⟩ := hinv
  have hnokey := no_session_on_unlocked st key hA hkey
  refine ⟨?_, ?_, ?_⟩
  · intro sid0 s0 h0
    simp only [mapLookup_insert] at h0
    by_cases hs : sid = sid0
    · rw [if_pos hs] at h0
      cases h0
      refine ⟨hs, ⟨val', true⟩, ?_, rfl⟩
      simp [mapLookup_insert]
    · rw [if_neg hs] at h0
      obtain ⟨hid, lv0, hlv0, hlock0⟩ := hA sid0 s0 h0
      refine ⟨hid, lv0, ?_, hlock0⟩
      simp only [mapLookup_insert]
      rw [if_neg (fun h => hnokey sid0 s0 h0 h.symm)]
      exact hlv0
  · intro sid1 s1 sid2 s2 h1 h2 hke
    simp only [mapLookup_insert] at h1 h2
    by_cases hs1 : sid = sid1 <;> by_cases hs2 : sid = sid2
    · rw [← hs1, ← hs2]
    · rw [if_pos hs1] at h1
      rw [if_neg hs2] at h2
      cases h1
      exact absurd (hke.symm) (hnokey sid2 s2 h2)
    · rw [if_neg hs1] at h1
      rw [if_pos hs2] at h2
      cases h2
      exact absurd hke (hnokey sid1 s1 h1)
    · rw [if_neg hs1] at h1
      rw [if_neg hs2] at h2
      exact hB sid1 s1 sid2 s2 h1 h2 hke
  · intro sid0 k0 hmem
    rcases List.mem_cons.mp hmem with heq | hmem'
    · cases heq
      refine ⟨⟨sid, key⟩, ?_, rfl⟩
      simp [mapLookup_insert]
    · obtain ⟨s0, hs0, hk0⟩ := hC sid0 k0 hmem'
      refine ⟨s0, ?_, hk0⟩
      simp only [mapLookup_insert]
      have hne : ¬ sid = sid0 := by
        intro he
        rw [← he] at hs0
        rw [hfresh] at hs0
        cases hs0
      rw [if_neg hne]
      exact hs0

/-- The acquire handler with a fresh session id preserves `Inv`. -/
theorem inv_acquire (st : ServerState) (k d v sid : String)
    (hinv : Inv st) (hfresh : mapLookup st.sessions sid = none) :
    Inv (acquireHandler st k d v sid).1 := by
  unfold acquireHandler
  cases hp : parseGoInt64 d with
  | none => exact hinv
  | some n =>
    cases hk : mapLookup st.kvs k with
    | none =>
      exact inv_acquire_aux st k sid v hinv hfresh
        (by intro lv h; rw [hk] at h; cases h)
    | some lv =>
      cases hl : lv.IsLocked with
      | true => simpa [hl] using hinv
      | false =>
        simp only [hl, Bool.false_eq_true, if_false]
        exact inv_acquire_aux st k sid lv.Value hinv hfresh
          (by intro lv' h; rw [hk] at h; cases h; exact hl)

/-- Deleting a registered session together with its key's table entry and
its pending timers preserves `Inv`, for any contents of the stale table
(the common core of `destroy` and a pending-timer expiry). -/
theorem inv_deleteSession (st : ServerState) (sid : String) (s : Session)
    (stl : List (String × String))
    (hinv : Inv st) (hs : mapLookup st.sessions sid = some s) :
    Inv { kvs := mapDelete st.kvs s.Key,
          sessions := mapDelete st.sessions sid,
          timers := timersRemove st.timers sid,
          stale := stl } := by
  obtain ⟨hA, hB, hC⟩ := hinv
  refine ⟨?_, ?_, ?_⟩
  · intro sid0 s0 h0
    simp only [mapLookup_delete] at h0
    by_cases hd : sid = sid0
    · rw [if_pos hd] at h0
      cases h0
    · rw [if_neg hd] at h0
      obtain ⟨hid, lv0, hlv0, hlock0⟩ := hA sid0 s0 h0
      refine ⟨hid, lv0, ?_, hlock0⟩
      simp only [mapLookup_delete]
      rw [if_neg (fun he => hd (hB sid s sid0 s0 hs h0 he))]
      exact hlv0
  · intro sid1 s1 sid2 s2 h1 h2 hke
    simp only [mapLookup_delete] at h1 h2
    by_cases hd1 : sid = sid1
    · rw [if_pos hd1] at h1
      cases h1
    · by_cases hd2 : sid = sid2
      · rw [if_pos hd2] at h2
        cases h2
      · rw [if_neg hd1] at h1
        rw [if_neg hd2] at h2
        exact hB sid1 s1 sid2 s2 h1 h2 hke
  · intro sid0 k0 hmem
    rw [mem_timersRemove] at hmem
    obtain ⟨hmem, hne⟩ := hmem
    obtain ⟨s0, hs0, hk0⟩ := hC sid0 k0 hmem
    refine ⟨s0, ?_, hk0⟩
    simp only [mapLookup_delete]
    rw [if_neg (fun h => hne h.symm)]
    exact hs0

/-- The destroy handler preserves `Inv`. -/
theorem inv_destroy (st : ServerState) (sid : String)
    (hinv : Inv st) : Inv (destroyHandler st sid) := by
  unfold destroyHandler
  cases hs : mapLookup st.sessions sid with
  | none => exact hinv
  | some s =>
    exact inv_deleteSession st sid s (st.stale ++ stopTimers st.timers sid)
      hinv hs

/-- The expiry callback preserves `Inv` when it fires a still-pending
timer (a stale callback that lost the `Stop` race can break `Inv`; that
case is deliberately not covered). -/
theorem inv_expire (st : ServerState) (sid k : String)
    (hinv : Inv st) (hmem : (sid, k) ∈ st.timers) :
    Inv (expireFire st sid k) := by
  unfold expireFire
  rw [if_pos hmem]
  obtain ⟨s, hs, hkey⟩ := hinv.2.2 sid k hmem
  cases hkey
  exact inv_deleteSession st sid s st.stale hinv hs

/-- The renew handler preserves `Inv`. -/
theorem inv_renew (st : ServerState) (sid d : String)
    (hinv : Inv st) : Inv (renewHandler st sid d).1 := by
  obtain ⟨hA, hB, hC⟩ := hinv
  unfold renewHandler
  cases hp : parseGoInt64 d with
  | none => exact ⟨hA, hB, hC⟩
  | some n =>
    cases hs : mapLookup st.sessions sid with
    | none => exact ⟨hA, hB, hC⟩
    | some s =>
      refine ⟨hA, hB, ?_⟩
      intro sid0 k0 hmem
      rcases List.mem_cons.mp hmem with heq | hmem'
      · cases heq
        exact ⟨s, hs, rfl⟩
      · exact hC sid0 k0 ((mem_timersRemove _ _ _).mp hmem').1

/-- The set handler preserves `Inv` whenever it does not panic. -/
theorem inv_set (st : ServerState) (k v sid : String)
    (st' : ServerState) (b : Bool) (hinv : Inv st)
    (h : setHandler st k v sid = some (st', b)) : Inv st' := by
  obtain ⟨hA, hB, hC⟩ := hinv
  unfold setHandler at h
  by_cases hsid : sid = ""
  · simp only [hsid, ne_eq, not_true_eq_false, if_false] at h
    cases hlv : mapLookup st.kvs k with
    | none =>
      rw [hlv] at h
      cases h
      refine ⟨?_, hB, hC⟩
      intro sid0 s0 h0
      obtain ⟨hid, lv0, hlv0, hlock0⟩ := hA sid0 s0 h0
      refine ⟨hid, lv0, ?_, hlock0⟩
      simp only [mapLookup_insert]
      have hne : ¬ k = s0.Key := by
        intro he
        rw [he] at hlv
        rw [hlv] at hlv0
        cases hlv0
      rw [if_neg hne]
      exact hlv0
    | some lv =>
      rw [hlv] at h
      cases h
      exact ⟨hA, hB, hC⟩
  · rw [if_pos hsid] at h
    cases hs : mapLookup st.sessions sid with
    | none =>
      rw [hs] at h
      cases h
      exact ⟨hA, hB, hC⟩
    | some s =>
      simp only [hs] at h
      by_cases hk : s.Key = k
      · rw [if_pos hk] at h
        cases hlv : mapLookup st.kvs k with
        | none =>
          rw [hlv] at h
          cases h
        | some lv =>
          rw [hlv] at h
          cases h
          refine ⟨?_, hB, hC⟩
          intro sid0 s0 h0
          obtain ⟨hid, lv0, hlv0, hlock0⟩ := hA sid0 s0 h0
          refine ⟨hid, ?_⟩
          by_cases hk0 : k = s0.Key
          · refine ⟨⟨v, lv.IsLocked⟩, ?_, ?_⟩
            · simp only [mapLookup_insert]
              rw [if_pos hk0]
            · rw [← hk0] at hlv0
              rw [hlv] at hlv0
              cases hlv0
              exact hlock0
          · refine ⟨lv0, ?_, hlock0⟩
            simp only [mapLookup_insert]
            rw [if_neg hk0]
            exact hlv0
      · rw [if_neg hk] at h
        cases h
        exact ⟨hA, hB, hC⟩

/-- Every `OkOp` step — no release, fresh acquire id, no stale-callback
firing — preserves `Inv`. -/
theorem inv_step (st : ServerState) (op : Op) (hinv : Inv st)
    (hok : OkOp st op) : Inv (applyOp st op) := by
  cases op with
  | acquire k d v sid => exact inv_acquire st k d v sid hinv hok
  | release k sid => cases hok
  | setO k v sid =>
    simp only [applyOp]
    cases h : setHandler st k v sid with
    | none => exact hinv
    | some p =>
      obtain ⟨st', b⟩ := p
      exact inv_set st k v sid st' b hinv h
  | renew sid d => exact inv_renew st sid d hinv
  | destroy sid => exact inv_destroy st sid hinv
  | expire sid k =>
    rcases hok with hp | hns
    · exact inv_expire st sid k hinv hp
    · by_cases hp2 : (sid, k) ∈ st.timers
      · exact inv_expire st sid k hinv hp2
      · have : expireFire st sid k = st := by
          unfold expireFire
          rw [if_neg hp2, if_neg hns]
        simpa [applyOp, this] using hinv

/-- Invariant `Inv` holds along every `OkRun`. -/
theorem inv_run (ops : List Op) (st : ServerState) (hinv : Inv st)
    (hok : OkRun st ops) : Inv (run st ops) := by
  induction ops generalizing st with
  | nil => exact hinv
  | cons op ops ih =>
    exact ih (applyOp st op) (inv_step st op hinv hok.1) hok.2

/-- Invariant `Inv` implies the weaker entry-existence invariant. -/
theorem inv_weak (st : ServerState) (hinv : Inv st) : WeakInv st := by
  intro sid s h
  obtain ⟨_, lv, hlv, _⟩ := hinv.1 sid s h
  rw [hlv]
  rfl

/-- Under `WeakInv` the authorized-set branch never dereferences an
absent entry: `setHandler` cannot panic. -/
theorem set_no_panic (st : ServerState) (k v sid : String)
    (hw : WeakInv st) : (setHandler st k v sid).isSome := by
  unfold setHandler
  by_cases hsid : sid = ""
  · simp only [hsid, ne_eq, not_true_eq_false, if_false]
    cases mapLookup st.kvs k <;> rfl
  · rw [if_pos hsid]
    cases hs : mapLookup st.sessions sid with
    | none => rfl
    | some s =>
      by_cases hk : s.Key = k
      · cases hlv : mapLookup st.kvs k with
        | none =>
          exfalso
          have hws := hw sid s hs
          rw [hk, hlv] at hws
          simp at hws
        | some lv => simp [hk, hlv]
      · simp [hk]

end InvariantPreservation

section LockPersistence

/-- Key `k` currently carries a held lock. -/
def lockedIn (st : ServerState) (k : String) : Prop :=
  ∃ lv, mapLookup st.kvs k = some lv ∧ lv.IsLocked = true

/-- Case analysis of the state written by a non-panicking `setHandler`:
it is unchanged, or an authorized value overwrite that keeps the lock
flag, or an unauthenticated creation of an absent key, unlocked. -/
theorem setHandler_state_cases (st : ServerState) (k2 v2 sid2 : String)
    (st' : ServerState) (b : Bool)
    (h : setHandler st k2 v2 sid2 = some (st', b)) :
    st' = st ∨
    (∃ lv2, mapLookup st.kvs k2 = some lv2 ∧
       st' = { st with kvs := mapInsert st.kvs k2 ⟨v2, lv2.IsLocked⟩ }) ∨
    (mapLookup st.kvs k2 = none ∧
       st' = { st with kvs := mapInsert st.kvs k2 ⟨v2, false⟩ }) := by
  unfold setHandler at h
  split at h
  · split at h
    · cases h
      exact Or.inl rfl
    · rename_i s hs
      split at h
      · rename_i hkey
        split at h
        · cases h
        · rename_i lv2 hlv2
          cases h
          exact Or.inr (Or.inl ⟨lv2, hlv2, rfl⟩)
      · cases h
        exact Or.inl rfl
  · split at h
    · rename_i hlv2
      cases h
      exact Or.inr (Or.inr ⟨hlv2, rfl⟩)
    · cases h
      exact Or.inl rfl

/-- A held lock on `k` survives any acquire request. -/
theorem lockedIn_acquire (st : ServerState) (k : String) (hk : lockedIn st k)
    (k2 d2 v2 sid2 : String) :
    lockedIn (acquireHandler st k2 d2 v2 sid2).1 k := by
  obtain ⟨lv, hlv, hl⟩ := hk
  unfold acquireHandler
  split
  · exact ⟨lv, hlv, hl⟩
  · split
    · rename_i hk2
      refine ⟨lv, ?_, hl⟩
      simp only [mapLookup_insert]
      have hne : ¬ k2 = k := by
        intro he
        rw [he] at hk2
        rw [hlv] at hk2
        cases hk2
      rw [if_neg hne]
      exact hlv
    · rename_i lv2 hk2
      split
      · exact ⟨lv, hlv, hl⟩
      · rename_i hl2
        refine ⟨lv, ?_, hl⟩
        simp only [mapLookup_insert]
        have hne : ¬ k2 = k := by
          intro he
          rw [he] at hk2
          rw [hlv] at hk2
          cases hk2
          exact hl2 (by rw [hl])
        rw [if_neg hne]
        exact hlv

/-- A held lock on `k` survives any set request. -/
theorem lockedIn_setO (st : ServerState) (k : String) (hk : lockedIn st k)
    (k2 v2 sid2 : String) :
    lockedIn (applyOp st (Op.setO k2 v2 sid2)) k := by
  obtain ⟨lv, hlv, hl⟩ := hk
  simp only [applyOp]
  cases h : setHandler st k2 v2 sid2 with
  | none => exact ⟨lv, hlv, hl⟩
  | some p =>
    obtain ⟨st', b⟩ := p
    rcases setHandler_state_cases st k2 v2 sid2 st' b h with
      rfl | ⟨lv2, hlv2, rfl⟩ | ⟨hlv2, rfl⟩
    · exact ⟨lv, hlv, hl⟩
    · by_cases he : k2 = k
      · subst he
        rw [hlv] at hlv2
        cases hlv2
        refine ⟨⟨v2, lv.IsLocked⟩, ?_, hl⟩
        simp [mapLookup_insert]
      · refine ⟨lv, ?_, hl⟩
        simp only [mapLookup_insert]
        rw [if_neg he]
        exact hlv
    · refine ⟨lv, ?_, hl⟩
      simp only [mapLookup_insert]
      have hne : ¬ k2 = k := by
        intro he
        rw [he] at hlv2
        rw [hlv] at hlv2
        cases hlv2
      rw [if_neg hne]
      exact hlv

/-- A held lock on `k` survives any renew request. -/
theorem lockedIn_renew (st : ServerState) (k : String) (hk : lockedIn st k)
    (sid2 d2 : String) : lockedIn (renewHandler st sid2 d2).1 k := by
  obtain ⟨lv, hlv, hl⟩ := hk
  unfold renewHandler
  split
  · exact ⟨lv, hlv, hl⟩
  · split
    · exact ⟨lv, hlv, hl⟩
    · exact ⟨lv, hlv, hl⟩

/-- A held lock on `k` survives a release aimed at another key or coming
from a session that does not lease `k`. -/
theorem lockedIn_release (st : ServerState) (k : String) (hk : lockedIn st k)
    (k2 sid2 : String)
    (hcond : k2 ≠ k ∨
      ∀ s2, mapLookup st.sessions sid2 = some s2 → s2.Key ≠ k) :
    lockedIn (releaseHandler st k2 sid2).1 k := by
  obtain ⟨lv, hlv, hl⟩ := hk
  unfold releaseHandler
  split
  · exact ⟨lv, hlv, hl⟩
  · split
    · exact ⟨lv, hlv, hl⟩
    · rename_i lv2 hkv s2 hs
      split
      · rename_i hkey
        refine ⟨lv, ?_, hl⟩
        simp only [mapLookup_insert]
        have hne : ¬ k2 = k := by
          rcases hcond with h | h
          · exact h
          · intro he
            exact h s2 hs (by rw [hkey, he])
        rw [if_neg hne]
        exact hlv
      · exact ⟨lv, hlv, hl⟩

/-- A held lock on `k` survives destroying a session that does not lease
`k`. -/
theorem lockedIn_destroy (st : ServerState) (k : String) (hk : lockedIn st k)
    (sid2 : String)
    (hcond : ∀ s2, mapLookup st.sessions sid2 = some s2 → s2.Key ≠ k) :
    lockedIn (destroyHandler st sid2) k := by
  obtain ⟨lv, hlv, hl⟩ := hk
  unfold destroyHandler
  split
  · exact ⟨lv, hlv, hl⟩
  · rename_i s2 hs
    refine ⟨lv, ?_, hl⟩
    simp only [mapLookup_delete]
    rw [if_neg (fun he => hcond s2 hs he)]
    exact hlv

/-- A held lock on `k` survives the firing of a timer — pending or stale
— armed for another key. -/
theorem lockedIn_expire (st : ServerState) (k : String) (hk : lockedIn st k)
    (sid2 k2 : String) (hne : k2 ≠ k) :
    lockedIn (expireFire st sid2 k2) k := by
  obtain ⟨lv, hlv, hl⟩ := hk
  unfold expireFire
  split
  · refine ⟨lv, ?_, hl⟩
    simp only [mapLookup_delete]
    rw [if_neg hne]
    exact hlv
  · split
    · refine ⟨lv, ?_, hl⟩
      simp only [mapLookup_delete]
      rw [if_neg hne]
      exact hlv
    · exact ⟨lv, hlv, hl⟩

end LockPersistence

section HandlerShapes

/-- Successful acquire: the key was absent or unlocked; the handler locks
the entry (keeping the old value when the entry existed), registers the
fresh session and arms its timer. -/
theorem acquire_success_shape (st : ServerState) (k d v sid : String)
    (n : Int) (hp : parseGoInt64 d = some n)
    (hkey : ∀ lv, mapLookup st.kvs k = some lv → lv.IsLocked = false) :
    ∃ val', acquireHandler st k d v sid =
      ({ kvs := mapInsert st.kvs k ⟨val', true⟩,
         sessions := mapInsert st.sessions sid ⟨sid, k⟩,
         timers := (sid, k) :: st.timers,
         stale := st.stale }, some (sid, true)) := by
  unfold acquireHandler
  split
  · rename_i hpn
    rw [hp] at hpn
    cases hpn
  · split
    · exact ⟨v, rfl⟩
    · rename_i lv hkv
      split
      · rename_i hl
        rw [hkey lv hkv] at hl
        cases hl
      · exact ⟨lv.Value, rfl⟩

/-- Acquire on a held key: nothing happens and failure is reported. -/
theorem acquire_locked_shape (st : ServerState) (k d v sid : String)
    (lv : LockableValue) (hkv : mapLookup st.kvs k = some lv)
    (hl : lv.IsLocked = true) (n : Int) (hp : parseGoInt64 d = some n) :
    acquireHandler st k d v sid = (st, some (sid, false)) := by
  unfold acquireHandler
  split
  · rename_i hpn
    rw [hp] at hpn
    cases hpn
  · split
    · rename_i h
      rw [hkv] at h
      cases h
    · rename_i lv2 hkv2
      rw [hkv] at hkv2
      cases hkv2
      split
      · rfl
      · rename_i h
        exact absurd hl h

/-- Successful release: the only write is clearing the lock flag. -/
theorem release_success_shape (st : ServerState) (k sid : String)
    (lv : LockableValue) (s : Session)
    (hkv : mapLookup st.kvs k = some lv)
    (hs : mapLookup st.sessions sid = some s) (hkey : s.Key = k) :
    releaseHandler st k sid =
      ({ st with kvs := mapInsert st.kvs k ⟨lv.Value, false⟩ }, true) := by
  unfold releaseHandler
  split
  · rename_i h
    rw [hkv] at h
    cases h
  · rename_i lv2 hkv2
    rw [hkv] at hkv2
    cases hkv2
    split
    · rename_i h
      rw [hs] at h
      cases h
    · rename_i s2 hs2
      rw [hs] at hs2
      cases hs2
      split
      · rfl
      · rename_i h
        exact absurd hkey h

/-- Failing release: any of the three conditions absent means no-op. -/
theorem release_fail_shape (st : ServerState) (k sid : String)
    (hfail : ¬ ∃ lv s, mapLookup st.kvs k = some lv
      ∧ mapLookup st.sessions sid = some s ∧ s.Key = k) :
    releaseHandler st k sid = (st, false) := by
  unfold releaseHandler
  split
  · rfl
  · rename_i lv hkv
    split
    · rfl
    · rename_i s hs
      split
      · rename_i hkey
        exact absurd ⟨lv, s, hkv, hs, hkey⟩ hfail
      · rfl

/-- Authorized set by the owner of a present key: value overwritten, lock
flag carried over. -/
theorem set_auth_success_shape (st : ServerState) (k v sid : String)
    (s : Session) (lv : LockableValue) (hsid : sid ≠ "")
    (hs : mapLookup st.sessions sid = some s) (hkey : s.Key = k)
    (hlv : mapLookup st.kvs k = some lv) :
    setHandler st k v sid =
      some ({ st with kvs := mapInsert st.kvs k ⟨v, lv.IsLocked⟩ }, true) := by
  unfold setHandler
  rw [if_pos hsid]
  split
  · rename_i h
    rw [hs] at h
    cases h
  · rename_i s2 hs2
    rw [hs] at hs2
    cases hs2
    split
    · split
      · rename_i h
        rw [hlv] at h
        cases h
      · rename_i lv2 hlv2
        rw [hlv] at hlv2
        cases hlv2
        rfl
    · rename_i h
      exact absurd hkey h

/-- Authorized set by a non-owner or unknown session: failure, no write. -/
theorem set_auth_fail_shape (st : ServerState) (k v sid : String)
    (hsid : sid ≠ "")
    (hnok : ∀ s, mapLookup st.sessions sid = some s → s.Key ≠ k) :
    setHandler st k v sid = some (st, false) := by
  unfold setHandler
  rw [if_pos hsid]
  split
  · rfl
  · rename_i s hs
    split
    · rename_i hkey
      exact absurd hkey (hnok s hs)
    · rfl

/-- Destroy of a registered session: both tables lose their entry and the
session's timers are stopped. -/
theorem destroy_some_shape (st : ServerState) (sid : String) (s : Session)
    (hs : mapLookup st.sessions sid = some s) :
    destroyHandler st sid =
      { kvs := mapDelete st.kvs s.Key,
        sessions := mapDelete st.sessions sid,
        timers := timersRemove st.timers sid,
        stale := st.stale ++ stopTimers st.timers sid } := by
  unfold destroyHandler
  split
  · rename_i h
    rw [hs] at h
    cases h
  · rename_i s2 hs2
    rw [hs] at hs2
    cases hs2
    rfl

/-- Destroy of an unknown session: silent no-op. -/
theorem destroy_none_shape (st : ServerState) (sid : String)
    (hs : mapLookup st.sessions sid = none) :
    destroyHandler st sid = st := by
  unfold destroyHandler
  split
  · rfl
  · rename_i s2 hs2
    rw [hs] at hs2
    cases hs2

end HandlerShapes

section Claims

/-- Demo store of the spec's prefix-listing test vector. -/
def demoKvsC3 : ServerState :=
  ⟨[("ab", ⟨"1", false⟩), ("abc", ⟨"2", false⟩), ("b", ⟨"3", false⟩)],
   [], [], []⟩

/-- C3: listKeys must not crash and must filter by prefix.  The source
slices `key[:len(prefix)]` unconditionally, so on the spec's own vector
`{"ab", "abc", "b"}` the embedded handler panics (`none`) both for the
filter "ab" (key "b" is shorter) and for "abcdef"; only the empty filter
behaves, returning all keys. -/
theorem C3_listKeys_crash :
    listKeysGo demoKvsC3 "" = some ["ab", "abc", "b"]
    ∧ listKeysGo demoKvsC3 "ab" = none
    ∧ listKeysGo demoKvsC3 "abcdef" = none := by
  refine ⟨?_, ?_, ?_⟩ <;> rfl

/-- C7: the unauthenticated set creates the entry, unlocked, only when
the key is absent; on a present key it fails and writes nothing. -/
theorem C7_unconditional_set (st : ServerState) (k v : String) :
    setHandler st k v "" =
      match mapLookup st.kvs k with
      | none => some ({ st with kvs := mapInsert st.kvs k ⟨v, false⟩ }, true)
      | some _ => some (st, false) := by
  unfold setHandler
  rw [if_neg (by simp)]

/-- C9: a duration that does not parse makes acquire and renew fail with
a reported error and leave the key/value table, the session registry and
the timers exactly as they were. -/
theorem C9_invalid_duration (st : ServerState) (k d v sid : String)
    (hd : parseGoInt64 d = none) :
    acquireHandler st k d v sid = (st, none)
    ∧ renewHandler st sid d = (st, false) := by
  constructor
  · unfold acquireHandler
    rw [hd]
  · unfold renewHandler
    rw [hd]

/-- Witness for C9 at the concrete non-numeric duration "10s". -/
theorem C9_invalid_duration_witness :
    acquireHandler initState "k" "10s" "v" "s1" = (initState, none)
    ∧ renewHandler initState "s1" "10s" = (initState, false) :=
  C9_invalid_duration initState "k" "10s" "v" "s1" rfl

/-- Concrete state right after a successful `acquire("k", "v")` by
session "s1": key locked, session registered, timer pending. -/
def stLockedC1 : ServerState :=
  ⟨[("k", ⟨"v", true⟩)], [("s1", ⟨"s1", "k"⟩)], [("s1", "k")], []⟩

/-- Entry-existence invariant at the concrete locked state. -/
theorem weakInv_stLockedC1 : WeakInv stLockedC1 := by
  intro sid s h
  have h2 : (if "s1" = sid then some (⟨"s1", "k"⟩ : Session) else none)
      = some s := h
  split at h2
  · cases h2
    rfl
  · cases h2

/-- C4: the expiry transition deletes exactly the table entry of the
captured key and the registry entry of the captured session id, nothing
else; and after a successful acquire that is never renewed or destroyed,
once the session's timer fires, `get` reports not-found and
`renew`/`destroy` of the dead session silently no-op. -/
theorem C4_expiry_cleanup :
    (∀ st sid key, (sid, key) ∈ st.timers →
      mapLookup (expireFire st sid key).kvs key = none
      ∧ (∀ k2, k2 ≠ key →
          mapLookup (expireFire st sid key).kvs k2 = mapLookup st.kvs k2)
      ∧ mapLookup (expireFire st sid key).sessions sid = none
      ∧ (∀ sid2, sid2 ≠ sid →
          mapLookup (expireFire st sid key).sessions sid2 =
            mapLookup st.sessions sid2))
    ∧ (∀ st k d v sid n, parseGoInt64 d = some n →
        (∀ lv, mapLookup st.kvs k = some lv → lv.IsLocked = false) →
        (acquireHandler st k d v sid).2 = some (sid, true)
        ∧ (getHandler (expireFire (acquireHandler st k d v sid).1 sid k) k).1
            = false
        ∧ (∀ d2, renewHandler
              (expireFire (acquireHandler st k d v sid).1 sid k) sid d2
            = (expireFire (acquireHandler st k d v sid).1 sid k,
               (parseGoInt64 d2).isSome))
        ∧ destroyHandler
              (expireFire (acquireHandler st k d v sid).1 sid k) sid
            = expireFire (acquireHandler st k d v sid).1 sid k) := by
  constructor
  · intro st sid key hmem
    unfold expireFire
    rw [if_pos hmem]
    refine ⟨?_, ?_, ?_, ?_⟩
    · simp [mapLookup_delete]
    · intro k2 hk2
      simp only [mapLookup_delete]
      rw [if_neg (fun h => hk2 h.symm)]
    · simp [mapLookup_delete]
    · intro sid2 hs2
      simp only [mapLookup_delete]
      rw [if_neg (fun h => hs2 h.symm)]
  · intro st k d v sid n hp hkey
    obtain ⟨val', hshape⟩ := acquire_success_shape st k d v sid n hp hkey
    rw [hshape]
    have hmem : (sid, k) ∈ (sid, k) :: st.timers :=
      List.mem_cons_self _ _
    have hexp : expireFire
        ({ kvs := mapInsert st.kvs k ⟨val', true⟩,
           sessions := mapInsert st.sessions sid ⟨sid, k⟩,
           timers := (sid, k) :: st.timers,
           stale := st.stale }) sid k =
      { kvs := mapDelete (mapInsert st.kvs k ⟨val', true⟩) k,
        sessions := mapDelete (mapInsert st.sessions sid ⟨sid, k⟩) sid,
        timers := timersRemove ((sid, k) :: st.timers) sid,
        stale := st.stale } := by
      unfold expireFire
      rw [if_pos hmem]
    rw [hexp]
    refine ⟨rfl, ?_, ?_, ?_⟩
    · simp [getHandler, mapLookup_delete]
    · intro d2
      cases hp2 : parseGoInt64 d2 with
      | none =>
        unfold renewHandler
        rw [hp2]
        rfl
      | some m =>
        unfold renewHandler
        rw [hp2]
        simp [mapLookup_delete]
    · unfold destroyHandler
      simp [mapLookup_delete]

/-- Witness for C4: both parts at concrete states — the pending timer of
`stLockedC1`, and acquire-then-expire from the empty state. -/
theorem C4_expiry_cleanup_witness :
    mapLookup (expireFire stLockedC1 "s1" "k").kvs "k" = none
    ∧ mapLookup (expireFire stLockedC1 "s1" "k").sessions "s1" = none
    ∧ (acquireHandler initState "k" "5" "v" "s1").2 = some ("s1", true)
    ∧ (getHandler (expireFire (acquireHandler initState "k" "5" "v" "s1").1
        "s1" "k") "k").1 = false
    ∧ destroyHandler (expireFire (acquireHandler initState "k" "5" "v" "s1").1
        "s1" "k") "s1"
      = expireFire (acquireHandler initState "k" "5" "v" "s1").1 "s1" "k" := by
  have h1 := C4_expiry_cleanup.1 stLockedC1 "s1" "k" (by decide)
  have h2 := C4_expiry_cleanup.2 initState "k" "5" "v" "s1" 5 rfl
    (fun lv h => by cases h)
  exact ⟨h1.1, h1.2.2.1, h2.1, h2.2.1, h2.2.2.2⟩

/-- C5: release succeeds exactly when the key has an entry, the session
exists, and the session leases this key; on success only the lock flag is
cleared — the value survives (`get` still finds it), sessions and timers
are untouched, other keys are unchanged, and a subsequent acquire on the
key succeeds; in every other case nothing changes. -/
theorem C5_release (st : ServerState) (k sid : String) :
    ((releaseHandler st k sid).2 = true ↔
      ∃ lv s, mapLookup st.kvs k = some lv
        ∧ mapLookup st.sessions sid = some s ∧ s.Key = k)
    ∧ ((releaseHandler st k sid).2 = false → (releaseHandler st k sid).1 = st)
    ∧ (∀ lv s, mapLookup st.kvs k = some lv →
        mapLookup st.sessions sid = some s → s.Key = k →
        (releaseHandler st k sid).1.kvs = mapInsert st.kvs k ⟨lv.Value, false⟩
        ∧ (releaseHandler st k sid).1.sessions = st.sessions
        ∧ (releaseHandler st k sid).1.timers = st.timers
        ∧ getHandler (releaseHandler st k sid).1 k = (true, k, lv.Value)
        ∧ (∀ k2, k2 ≠ k → mapLookup (releaseHandler st k sid).1.kvs k2
            = mapLookup st.kvs k2)
        ∧ (∀ d2 v2 sid2 n2, parseGoInt64 d2 = some n2 →
            (acquireHandler (releaseHandler st k sid).1 k d2 v2 sid2).2
              = some (sid2, true))) := by
  refine ⟨⟨?_, ?_⟩, ?_, ?_⟩
  · intro htrue
    by_cases hex : ∃ lv s, mapLookup st.kvs k = some lv
        ∧ mapLookup st.sessions sid = some s ∧ s.Key = k
    · exact hex
    · rw [release_fail_shape st k sid hex] at htrue
      cases htrue
  · rintro ⟨lv, s, hkv, hs, hkey⟩
    rw [release_success_shape st k sid lv s hkv hs hkey]
  · intro hfalse
    by_cases hex : ∃ lv s, mapLookup st.kvs k = some lv
        ∧ mapLookup st.sessions sid = some s ∧ s.Key = k
    · obtain ⟨lv, s, hkv, hs, hkey⟩ := hex
      rw [release_success_shape st k sid lv s hkv hs hkey] at hfalse
      cases hfalse
    · rw [release_fail_shape st k sid hex]
  · intro lv s hkv hs hkey
    rw [release_success_shape st k sid lv s hkv hs hkey]
    refine ⟨rfl, rfl, rfl, ?_, ?_, ?_⟩
    · simp [getHandler, mapLookup_insert]
    · intro k2 hk2
      simp only [mapLookup_insert]
      rw [if_neg (fun h => hk2 h.symm)]
    · intro d2 v2 sid2 n2 hp2
      have hka : ∀ lv', mapLookup
          ({ st with kvs := mapInsert st.kvs k ⟨lv.Value, false⟩ }
            : ServerState).kvs k = some lv' → lv'.IsLocked = false := by
        intro lv' hlv'
        have h3 : mapLookup (mapInsert st.kvs k ⟨lv.Value, false⟩) k
            = some lv' := hlv'
        rw [mapLookup_insert, if_pos rfl] at h3
        have h4 := Option.some.inj h3
        rw [← h4]
      obtain ⟨val', hsh⟩ := acquire_success_shape _ k d2 v2 sid2 n2 hp2 hka
      rw [hsh]

/-- Witness for C5 at the concrete locked state: release by the owner
succeeds, the value is still readable, and re-acquire succeeds. -/
theorem C5_release_witness :
    (releaseHandler stLockedC1 "k" "s1").2 = true
    ∧ getHandler (releaseHandler stLockedC1 "k" "s1").1 "k" = (true, "k", "v")
    ∧ (acquireHandler (releaseHandler stLockedC1 "k" "s1").1 "k" "5" "w" "s2").2
        = some ("s2", true) := by
  have h := C5_release stLockedC1 "k" "s1"
  refine ⟨h.1.mpr ⟨⟨"v", true⟩, ⟨"s1", "k"⟩, rfl, rfl, rfl⟩, ?_, ?_⟩
  · exact (h.2.2 ⟨"v", true⟩ ⟨"s1", "k"⟩ rfl rfl rfl).2.2.2.1
  · exact (h.2.2 ⟨"v", true⟩ ⟨"s1", "k"⟩ rfl rfl rfl).2.2.2.2.2 "5" "w" "s2" 5 rfl

/-- C6 (amended): in states where every registered session's key has a
table entry — the invariant the code relies on, violable through the
dangling-session corner — authorized set succeeds and overwrites the
stored value exactly when the named session exists and leases this very
key (the lock flag is carried over and `get` then returns the new value);
with an unknown session or a session leasing another key it fails and
changes nothing.  Without that hypothesis the success case can instead be
an absent-entry dereference. -/
theorem C6_authorized_set (st : ServerState) (k v sid : String)
    (hsid : sid ≠ "") (hw : WeakInv st) :
    (∀ s, mapLookup st.sessions sid = some s → s.Key = k →
      ∃ lv, mapLookup st.kvs k = some lv
        ∧ setHandler st k v sid =
            some ({ st with kvs := mapInsert st.kvs k ⟨v, lv.IsLocked⟩ }, true)
        ∧ getHandler { st with kvs := mapInsert st.kvs k ⟨v, lv.IsLocked⟩ } k
            = (true, k, v))
    ∧ ((∀ s, mapLookup st.sessions sid = some s → s.Key ≠ k) →
        setHandler st k v sid = some (st, false)) := by
  constructor
  · intro s hs hkey
    have hsome := hw sid s hs
    rw [hkey] at hsome
    cases hlv : mapLookup st.kvs k with
    | none =>
      rw [hlv] at hsome
      cases hsome
    | some lv =>
      refine ⟨lv, rfl,
        set_auth_success_shape st k v sid s lv hsid hs hkey hlv, ?_⟩
      simp [getHandler, mapLookup_insert]
  · intro hnok
    exact set_auth_fail_shape st k v sid hsid hnok

/-- Witness for C6: the owner "s1" overwrites, the unknown "s9" fails. -/
theorem C6_authorized_set_witness :
    setHandler stLockedC1 "k" "v2" "s1" =
      some ({ stLockedC1 with
        kvs := mapInsert stLockedC1.kvs "k" ⟨"v2", true⟩ }, true)
    ∧ setHandler stLockedC1 "k" "v2" "s9" = some (stLockedC1, false) := by
  constructor
  · have h := (C6_authorized_set stLockedC1 "k" "v2" "s1" (by decide)
      weakInv_stLockedC1).1 ⟨"s1", "k"⟩ rfl rfl
    obtain ⟨lv, hlv, hset, _⟩ := h
    have hlv2 : lv = ⟨"v", true⟩ := by
      have h5 : (some (⟨"v", true⟩ : LockableValue)) = some lv := hlv
      exact (Option.some.inj h5).symm
    rw [hlv2] at hset
    exact hset
  · exact (C6_authorized_set stLockedC1 "k" "v2" "s9" (by decide)
      weakInv_stLockedC1).2 (fun s hs => by cases hs)

/-- C8: destroying an existing session stops its timers and deletes both
its key's entry (so `get` reports not-found — the value is gone, not just
unlocked) and the session itself; destroying an unknown session changes
nothing. -/
theorem C8_destroy (st : ServerState) (sid : String) :
    (∀ s, mapLookup st.sessions sid = some s →
      destroyHandler st sid =
        { kvs := mapDelete st.kvs s.Key,
          sessions := mapDelete st.sessions sid,
          timers := timersRemove st.timers sid,
          stale := st.stale ++ stopTimers st.timers sid }
      ∧ (getHandler (destroyHandler st sid) s.Key).1 = false
      ∧ mapLookup (destroyHandler st sid).sessions sid = none
      ∧ (∀ k2, (sid, k2) ∉ (destroyHandler st sid).timers))
    ∧ (mapLookup st.sessions sid = none → destroyHandler st sid = st) := by
  constructor
  · intro s hs
    have hsh := destroy_some_shape st sid s hs
    rw [hsh]
    refine ⟨rfl, ?_, ?_, ?_⟩
    · simp [getHandler, mapLookup_delete]
    · simp [mapLookup_delete]
    · intro k2 hmem
      rw [mem_timersRemove] at hmem
      exact hmem.2 rfl
  · exact destroy_none_shape st sid

/-- Witness for C8: destroying "s1" in the locked state removes both
entries and its timer; destroying the unknown "s9" is a no-op. -/
theorem C8_destroy_witness :
    destroyHandler stLockedC1 "s1" =
      { kvs := mapDelete stLockedC1.kvs "k",
        sessions := mapDelete stLockedC1.sessions "s1",
        timers := timersRemove stLockedC1.timers "s1",
        stale := stLockedC1.stale ++ stopTimers stLockedC1.timers "s1" }
    ∧ (getHandler (destroyHandler stLockedC1 "s1") "k").1 = false
    ∧ mapLookup (destroyHandler stLockedC1 "s1").sessions "s1" = none
    ∧ destroyHandler stLockedC1 "s9" = stLockedC1 := by
  have h := (C8_destroy stLockedC1 "s1").1 ⟨"s1", "k"⟩ rfl
  exact ⟨h.1, h.2.1, h.2.2.1, (C8_destroy stLockedC1 "s9").2 rfl⟩

/-- C1 (amended): while some session holds the lock on `k`, a further
acquire leaves the whole state unchanged (so the fresh id is returned but
never registered) and, whenever the duration parses, reports
`success = false`; and the held lock on `k` survives every operation
except a release of `k`, a destroy of a session leasing `k`, or the
firing of a timer armed for `k`.  The claim's stronger "until that
session releases, expires, or is destroyed" does not hold: a timer of an
earlier session of the same key can fire and delete the key out from
under the current holder. -/
theorem C1_mutual_exclusion (st : ServerState) (k d v sid : String)
    (lv : LockableValue) (hkv : mapLookup st.kvs k = some lv)
    (hl : lv.IsLocked = true) :
    (acquireHandler st k d v sid).1 = st
    ∧ (∀ n, parseGoInt64 d = some n →
        (acquireHandler st k d v sid).2 = some (sid, false))
    ∧ (∀ k2 d2 v2 sid2, lockedIn (acquireHandler st k2 d2 v2 sid2).1 k)
    ∧ (∀ k2 v2 sid2, lockedIn (applyOp st (Op.setO k2 v2 sid2)) k)
    ∧ (∀ sid2 d2, lockedIn (renewHandler st sid2 d2).1 k)
    ∧ (∀ k2 sid2, (k2 ≠ k ∨ ∀ s2, mapLookup st.sessions sid2 = some s2 →
          s2.Key ≠ k) → lockedIn (releaseHandler st k2 sid2).1 k)
    ∧ (∀ sid2, (∀ s2, mapLookup st.sessions sid2 = some s2 → s2.Key ≠ k) →
        lockedIn (destroyHandler st sid2) k)
    ∧ (∀ sid2 k2, k2 ≠ k → lockedIn (expireFire st sid2 k2) k) := by
  have hlk : lockedIn st k := ⟨lv, hkv, hl⟩
  refine ⟨?_, ?_,
    fun k2 d2 v2 sid2 => lockedIn_acquire st k hlk k2 d2 v2 sid2,
    fun k2 v2 sid2 => lockedIn_setO st k hlk k2 v2 sid2,
    fun sid2 d2 => lockedIn_renew st k hlk sid2 d2,
    fun k2 sid2 hc => lockedIn_release st k hlk k2 sid2 hc,
    fun sid2 hc => lockedIn_destroy st k hlk sid2 hc,
    fun sid2 k2 hne => lockedIn_expire st k hlk sid2 k2 hne⟩
  · unfold acquireHandler
    split
    · rfl
    · split
      · rename_i h
        rw [hkv] at h
        cases h
      · rename_i lv2 hkv2
        rw [hkv] at hkv2
        cases hkv2
        split
        · rfl
        · rename_i h
          exact absurd hl h
  · intro n hp
    rw [acquire_locked_shape st k d v sid lv hkv hl n hp]

/-- Witness for C1 in the concrete locked state: a competing acquire by
"s9" changes nothing and reports failure, and the lock survives a release
request from the unknown session "s9". -/
theorem C1_mutual_exclusion_witness :
    (acquireHandler stLockedC1 "k" "7" "w" "s9").1 = stLockedC1
    ∧ (acquireHandler stLockedC1 "k" "7" "w" "s9").2 = some ("s9", false)
    ∧ lockedIn (releaseHandler stLockedC1 "k" "s9").1 "k" := by
  have h := C1_mutual_exclusion stLockedC1 "k" "7" "w" "s9" ⟨"v", true⟩ rfl rfl
  refine ⟨h.1, h.2.1 7 rfl, h.2.2.2.2.2.1 "k" "s9" (Or.inr ?_)⟩
  intro s2 hs2
  cases hs2

/-- Operation trace exhibiting the dangling-session corner: release
leaves "s1" registered with its (never-stopped, still-pending) timer
armed; "s2" re-acquires the key; then s1's timer fires and deletes the
key's entry while "s2" is still registered. -/
def danglingTrace : List Op :=
  [Op.acquire "k" "5" "v" "s1", Op.release "k" "s1",
   Op.acquire "k" "5" "w" "s2", Op.expire "s1" "k"]

/-- C1 fails as stated: after the dangling trace, "s2" — which never
released, never expired, and was never destroyed — is still registered,
yet a third acquire of the same key succeeds, because the stale session's
timer deleted the key's entry. -/
theorem C1_counterexample :
    mapLookup (run initState danglingTrace).sessions "s2" = some ⟨"s2", "k"⟩
    ∧ (acquireHandler (run initState danglingTrace) "k" "5" "x" "s3").2
        = some ("s3", true) :=
  ⟨rfl, rfl⟩

/-- C2 fails as stated: after acquire("k") by "s1" and release("k","s1")
the session is still registered while its key's lock flag is false, so
the invariant `kvs[s.key].isLocked == true` does not survive release. -/
theorem C2_counterexample :
    mapLookup (applyOp (applyOp initState (Op.acquire "k" "5" "v" "s1"))
        (Op.release "k" "s1")).sessions "s1" = some ⟨"s1", "k"⟩
    ∧ mapLookup (applyOp (applyOp initState (Op.acquire "k" "5" "v" "s1"))
        (Op.release "k" "s1")).kvs "k" = some ⟨"v", false⟩ :=
  ⟨rfl, rfl⟩

/-- C2 amended: acquire (with the fresh cuid the source guarantees), set,
renew, and destroy preserve the invariant that each registered session is
keyed by its id and leases a present, locked entry (with owner uniqueness
and pending-timer well-formedness), and so does the expiry callback when
it fires the session's still-pending timer.  Release breaks the invariant
(see the counterexample), and a stale callback that lost the `Stop` race
of spec §5 can break it too, so neither is covered. -/
theorem C2_amended_preservation (st : ServerState) (hinv : Inv st) :
    (∀ k d v sid, mapLookup st.sessions sid = none →
       Inv (acquireHandler st k d v sid).1)
    ∧ (∀ k v sid st2 b, setHandler st k v sid = some (st2, b) → Inv st2)
    ∧ (∀ sid d, Inv (renewHandler st sid d).1)
    ∧ (∀ sid, Inv (destroyHandler st sid))
    ∧ (∀ sid k, (sid, k) ∈ st.timers → Inv (expireFire st sid k)) :=
  ⟨fun k d v sid hfresh => inv_acquire st k d v sid hinv hfresh,
   fun k v sid st2 b h => inv_set st k v sid st2 b hinv h,
   fun sid d => inv_renew st sid d hinv,
   fun sid => inv_destroy st sid hinv,
   fun sid k hmem => inv_expire st sid k hinv hmem⟩

/-- Witness for the amended C2 at concrete non-release operations. -/
theorem C2_amended_preservation_witness :
    Inv (acquireHandler initState "k" "5" "v" "s1").1
    ∧ Inv (destroyHandler initState "s1") :=
  ⟨(C2_amended_preservation initState inv_init).1 "k" "5" "v" "s1" rfl,
   (C2_amended_preservation initState inv_init).2.2.2.1 "s1"⟩

/-- C6 fails as stated: the dangling trace reaches a state where the
session "s2" exists and leases "k", yet the authorized set does not
return success — it dereferences the absent entry (embedded panic
`none`), because the key's entry was deleted by the stale session's
expiry. -/
theorem C6_counterexample :
    mapLookup (run initState danglingTrace).sessions "s2" = some ⟨"s2", "k"⟩
    ∧ setHandler (run initState danglingTrace) "k" "v2" "s2" = none :=
  ⟨rfl, rfl⟩

/-- C10 fails as stated: after the dangling trace the session "s2" is
still registered but its key has no table entry, and the authorized set
through "s2" hits exactly the absent-entry dereference the invariant was
supposed to exclude. -/
theorem C10_counterexample :
    mapLookup (run initState danglingTrace).sessions "s2" = some ⟨"s2", "k"⟩
    ∧ mapLookup (run initState danglingTrace).kvs "k" = none
    ∧ setHandler (run initState danglingTrace) "k" "x" "s2" = none :=
  ⟨rfl, rfl, rfl⟩

/-- C10 amended: along any run from the empty state that contains no
release, acquires with fresh session ids, and fires only still-pending
timers (no stale callback that lost the spec §5 `Stop` race), every
registered session's key still has a table entry, so the unguarded
overwrite in the authorized set branch cannot dereference an absent
entry.  A release — or a stale callback firing after destroy/renew — can
break this, as the counterexample shows for release. -/
theorem C10_amended_weak_inv (ops : List Op) (hok : OkRun initState ops) :
    WeakInv (run initState ops)
    ∧ ∀ k v sid, (setHandler (run initState ops) k v sid).isSome := by
  have hinv := inv_run ops initState inv_init hok
  exact ⟨inv_weak _ hinv,
    fun k v sid => set_no_panic _ k v sid (inv_weak _ hinv)⟩

/-- Witness for the amended C10 on a concrete well-formed trace. -/
theorem C10_amended_weak_inv_witness :
    WeakInv (run initState [Op.acquire "k" "5" "v" "s1"])
    ∧ (setHandler (run initState [Op.acquire "k" "5" "v" "s1"])
        "k" "x" "s1").isSome := by
  have h := C10_amended_weak_inv [Op.acquire "k" "5" "v" "s1"] ⟨rfl, trivial⟩
  exact ⟨h.1, h.2 "k" "x" "s1"⟩

end Claims

end Distlock
